import Mathlib

/-!
Shallow embedding of the Tint shader-compiler front-end components of this
repository: the WGSL parser result types (`Expect` / `Maybe`), the parser
progress predicate `continue_parsing`, the AST `Function` derived queries
(`workgroup_size`, `referenced_uniform_variables`,
`add_referenced_module_variable`), the IR converter entry point
(`Converter.FromProgram`), the IR def-use bookkeeping, and the transform
framework (`Transform::Run`, `ShuffleTransform`).
-/

namespace Tint

/-- A source span, as carried by tokens, AST nodes and parser results
(`src/tint/reader/wgsl/parser_impl.h` uses `Source`; modelled here by its
line/column payload, which is all the claims need). -/
structure Source where
  line : Nat
  column : Nat
  deriving DecidableEq, Repr, Inhabited

namespace wgsl

/-- `ParserImpl::Expect<T>` (`src/tint/reader/wgsl/parser_impl.h`): the value
of a parse that was expected to succeed, with the `errored` flag set by the
`Failure::Errored` constructor. The three data fields mirror the C++ members
`value`, `source` and `errored`. -/
structure Expect (α : Type) where
  value : α
  source : Source
  errored : Bool
  deriving DecidableEq, Repr

/-- `Expect`'s successful-parse constructor `Expect(U&& val, const Source& s)`:
`errored` is left at its member initializer `false`. -/
def Expect.ofValue {α : Type} (val : α) (s : Source) : Expect α :=
  { value := val, source := s, errored := false }

/-- `Expect`'s error constructor `Expect(Failure::Errored)`: the value is
zero-initialized (`T value{}`), the source default-constructed, and
`errored` set to `true`. -/
def Expect.ofErrored {α : Type} [Inhabited α] : Expect α :=
  { value := default, source := default, errored := true }

/-- `ParserImpl::Maybe<T>` (`src/tint/reader/wgsl/parser_impl.h`): the result
of a parser rule that may match, may not match, or may consume tokens and then
error. The four data fields mirror the C++ members `value`, `source`,
`errored` and `matched`. -/
structure Maybe (α : Type) where
  value : α
  source : Source
  errored : Bool
  matched : Bool
  deriving DecidableEq, Repr

/-- `Maybe`'s successful-parse constructor `Maybe(U&& val, const Source& s)`:
`matched` is set to `true`, `errored` left at `false`. -/
def Maybe.ofValue {α : Type} (val : α) (s : Source) : Maybe α :=
  { value := val, source := s, errored := false, matched := true }

/-- `Maybe`'s error constructor `Maybe(Failure::Errored)`: only `errored` is
set; `matched` keeps its member initializer `false` and the value is
zero-initialized. -/
def Maybe.ofErrored {α : Type} [Inhabited α] : Maybe α :=
  { value := default, source := default, errored := true, matched := false }

/-- `Maybe`'s no-match constructor `Maybe(Failure::NoMatch)`: every member
keeps its initializer (`errored = false`, `matched = false`). -/
def Maybe.ofNoMatch {α : Type} [Inhabited α] : Maybe α :=
  { value := default, source := default, errored := false, matched := false }

/-- `Maybe`'s copy conversion from an `Expect<U>`:
`Maybe(const Expect<U>& e) : value(e.value), source(e.value),
errored(e.errored), matched(!e.errored)`. Note the member initializer
`source(e.value)`: the `source` member is built from the *value* of the
`Expect` (through whatever implicit conversion `U → Source` makes the
template instantiation compile, modelled by `toSource`), not from
`e.source`. `toVal` models the `U → T` conversion applied by `value(e.value)`. -/
def Maybe.fromExpectCopy {α β : Type} (toVal : β → α) (toSource : β → Source)
    (e : Expect β) : Maybe α :=
  { value := toVal e.value, source := toSource e.value,
    errored := e.errored, matched := !e.errored }

/-- `Maybe`'s move conversion from an `Expect<U>`:
`Maybe(Expect<U>&& e) : value(std::move(e.value)), source(std::move(e.source)),
errored(e.errored), matched(!e.errored)`. Here `source` is taken from
`e.source`. -/
def Maybe.fromExpectMove {α β : Type} (toVal : β → α) (e : Expect β) : Maybe α :=
  { value := toVal e.value, source := e.source,
    errored := e.errored, matched := !e.errored }

/-- The matched-with-value state of a `Maybe`. -/
def Maybe.inMatchedState {α : Type} (m : Maybe α) : Prop :=
  m.matched = true ∧ m.errored = false

/-- The no-match state of a `Maybe`. -/
def Maybe.inNoMatchState {α : Type} (m : Maybe α) : Prop :=
  m.matched = false ∧ m.errored = false

/-- The errored state of a `Maybe`. -/
def Maybe.inErroredState {α : Type} (m : Maybe α) : Prop :=
  m.matched = false ∧ m.errored = true

/-- A `Maybe` value as produced by one of the five constructors of
`ParserImpl::Maybe` (value, errored, no-match, copy-from-`Expect`,
move-from-`Expect`); every parser rule result arises this way. -/
inductive Maybe.Constructed {α : Type} [Inhabited α] : Maybe α → Prop where
  | ofValue (val : α) (s : Source) : Maybe.Constructed (Maybe.ofValue val s)
  | ofErrored : Maybe.Constructed (Maybe.ofErrored)
  | ofNoMatch : Maybe.Constructed (Maybe.ofNoMatch)
  | fromExpectCopy {β : Type} (toVal : β → α) (toSource : β → Source)
      (e : Expect β) : Maybe.Constructed (Maybe.fromExpectCopy toVal toSource e)
  | fromExpectMove {β : Type} (toVal : β → α) (e : Expect β) :
      Maybe.Constructed (Maybe.fromExpectMove toVal e)

/-- Parser progress state: the fields of `ParserImpl` that
`continue_parsing()` reads (`synchronized_`, the diagnostics error count, and
`max_errors_`). -/
structure ParserState where
  synchronized : Bool
  errorCount : Nat
  maxErrors : Nat
  deriving DecidableEq, Repr

/-- The member initializer of `ParserImpl::max_errors_`:
`size_t max_errors_ = 25;`. -/
def ParserState.defaultMaxErrors : Nat := 25

/-- `ParserImpl::continue_parsing()`: `synchronized_ &&
builder_.Diagnostics().error_count() < max_errors_`. -/
def ParserState.continue_parsing (s : ParserState) : Bool :=
  s.synchronized && decide (s.errorCount < s.maxErrors)

end wgsl

namespace ast

/-- `ast::PipelineStage`. -/
inductive PipelineStage where
  | kNone
  | kVertex
  | kFragment
  | kCompute
  deriving DecidableEq, Repr

/-- `ast::StorageClass` (the storage-class enum of the AST variable model). -/
inductive StorageClass where
  | kNone
  | kInput
  | kOutput
  | kUniform
  | kWorkgroup
  | kUniformConstant
  | kStorageBuffer
  | kImage
  | kPrivate
  | kFunction
  deriving DecidableEq, Repr

/-- The closed set of decoration variants the AST claims touch
(`WorkgroupDecoration`, `StageDecoration`, `BindingDecoration`,
`SetDecoration`, `LocationDecoration`, `BuiltinDecoration`); a C++
`deco->As<X>()` downcast is a match on this tag. `workgroup` carries the
`values()` triple of three `uint32_t` dimensions. -/
inductive Decoration where
  | workgroup (x y z : Nat)
  | stage (s : PipelineStage)
  | binding (value : Nat)
  | set (value : Nat)
  | location (value : Nat)
  | builtin (value : Nat)
  deriving DecidableEq, Repr

/-- Whether a decoration is a `WorkgroupDecoration`
(i.e. `deco->As<WorkgroupDecoration>()` is non-null). -/
def Decoration.isWorkgroup : Decoration → Bool
  | Decoration.workgroup _ _ _ => true
  | _ => false

/-- The `values()` triple of a `WorkgroupDecoration`, when the decoration is
one. -/
def Decoration.workgroupValues : Decoration → Option (Nat × Nat × Nat)
  | Decoration.workgroup x y z => some (x, y, z)
  | _ => none

/-- An AST `Variable` is either a plain `Variable` or a `DecoratedVariable`
(the subclass carrying a decoration list); `var->As<DecoratedVariable>()`
is a match on this tag. -/
inductive VariableKind where
  | plain
  | decorated (decorations : List Decoration)
  deriving DecidableEq, Repr

/-- `ast::Variable`, with the members the claims read: `name()`,
`storage_class()` and the decorated-or-not shape. -/
structure Variable where
  name : String
  storage_class : StorageClass
  kind : VariableKind
  deriving DecidableEq, Repr

/-- `Function::BindingInfo`: in the source it pairs a `BindingDecoration*`
and a `SetDecoration*`; modelled by the values those decorations carry. -/
structure BindingInfo where
  binding : Nat
  set : Nat
  deriving DecidableEq, Repr

/-- `ast::Function` (`src/ast/function.cc`), restricted to the members the
claims read: the decoration list and the accumulated referenced
module-scope variable list. -/
structure Function where
  name : String
  decorations : List Decoration
  referenced_module_vars : List Variable
  deriving DecidableEq, Repr

/-- The loop of `Function::workgroup_size()`: scan the decoration list, return
the `values()` of the first `WorkgroupDecoration`, and `{1, 1, 1}` when none
is found. -/
def workgroupSizeLoop : List Decoration → Nat × Nat × Nat
  | [] => (1, 1, 1)
  | Decoration.workgroup x y z :: _ => (x, y, z)
  | _ :: rest => workgroupSizeLoop rest

/-- `Function::workgroup_size()`. -/
def Function.workgroup_size (f : Function) : Nat × Nat × Nat :=
  workgroupSizeLoop f.decorations

/-- `Function::add_referenced_module_variable(Variable* var)`: scan the
current list; if any entry has the same name, return without changing the
list, otherwise `push_back(var)`. -/
def Function.add_referenced_module_variable (f : Function) (var : Variable) :
    Function :=
  if f.referenced_module_vars.any (fun v => v.name = var.name) then f
  else { f with referenced_module_vars := f.referenced_module_vars ++ [var] }

/-- The binding/set scan shared by `Function::referenced_uniform_variables()`
and its siblings: walk the decoration list with
`if (auto* b = deco->As<BindingDecoration>()) binding = b;
else if (auto* s = deco->As<SetDecoration>()) set = s;`
so a later decoration of the same kind overwrites an earlier one. -/
def scanBindingSetLoop (acc : Option Nat × Option Nat) :
    List Decoration → Option Nat × Option Nat
  | [] => acc
  | Decoration.binding b :: rest => scanBindingSetLoop (some b, acc.2) rest
  | Decoration.set s :: rest => scanBindingSetLoop (acc.1, some s) rest
  | _ :: rest => scanBindingSetLoop acc rest

/-- The binding/set scan started from `binding = nullptr; set = nullptr`. -/
def scanBindingSet (decos : List Decoration) : Option Nat × Option Nat :=
  scanBindingSetLoop (none, none) decos

/-- The per-variable body of the `Function::referenced_uniform_variables()`
loop: skip variables whose storage class is not `kUniform`, skip plain (non
`DecoratedVariable`) variables, run the binding/set scan, skip when either
pointer stayed null, else emit `{var, BindingInfo{binding, set}}`. -/
def uniformEntry (var : Variable) : Option (Variable × BindingInfo) :=
  if var.storage_class = StorageClass.kUniform then
    match var.kind with
    | VariableKind.plain => none
    | VariableKind.decorated decos =>
      match scanBindingSet decos with
      | (some b, some s) => some (var, { binding := b, set := s })
      | _ => none
  else none

/-- `Function::referenced_uniform_variables()`. -/
def Function.referenced_uniform_variables (f : Function) :
    List (Variable × BindingInfo) :=
  f.referenced_module_vars.filterMap uniformEntry

end ast

/-- A resolved `Program` (`src/tint/program.h` is consumed by the claims only
through `IsValid()`, cloning, and its ordered module-scope declaration list;
declarations are modelled by identifiers). -/
structure Program where
  declarations : List String
  valid : Bool
  deriving DecidableEq, Repr

/-- `Program::IsValid()`. -/
def Program.IsValid (p : Program) : Bool := p.valid

/-- `Program::Clone()`: rebuilds a structurally identical program in a fresh
arena; observationally the same program. -/
def Program.Clone (p : Program) : Program :=
  { declarations := p.declarations, valid := p.valid }

namespace ir

/-- An IR module (`Converter::Result` carries one on success); its contents
are irrelevant to the claims, so it is modelled by its function list. -/
structure Module where
  functions : List String
  deriving DecidableEq, Repr

/-- `Converter::Result`: either a built IR module or a failure message. -/
inductive ConverterResult where
  | success (mod : Module)
  | failure (msg : String)
  deriving DecidableEq, Repr

/-- `Converter::FromProgram` (`src/tint/ir/converter.cc`): reject an invalid
program with the failure message `"input program is not valid"` before
constructing any builder; otherwise run `BuilderImpl(program).Build()` and
return its module, or its diagnostics string on build failure. The builder is
not under `src/`, so `FromProgram` is parametrized over the `build` step,
and the theorems below hold for every such step. -/
def Converter.FromProgram (build : Program → Except String Module)
    (p : Program) : ConverterResult :=
  if !p.IsValid then ConverterResult.failure "input program is not valid"
  else
    match build p with
    | Except.error diag => ConverterResult.failure diag
    | Except.ok m => ConverterResult.success m

/-- The kind enum of `ir::Unary` (`src/tint/ir/unary.h`). -/
inductive UnaryKind where
  | kAddressOf
  | kComplement
  | kIndirection
  | kNegation
  | kNot
  deriving DecidableEq, Repr

/-- An IR `Value`, identified by `vid`, with its recorded use-list of
instruction ids (`Value::Usage()`). -/
structure Value where
  vid : Nat
  usage : List Nat
  deriving DecidableEq, Repr

/-- An IR instruction, identified by `iid`, with its unary kind and the list
of operand value ids (`Unary` holds the single operand `val_`). -/
structure Instruction where
  iid : Nat
  kind : UnaryKind
  operands : List Nat
  deriving DecidableEq, Repr

/-- The IR `Builder` state: fresh-id counters plus the values and
instructions created so far. -/
structure Builder where
  nextValueId : Nat
  nextInstId : Nat
  values : List Value
  insts : List Instruction
  deriving DecidableEq, Repr

/-- The initial builder with no values and no instructions. -/
def Builder.empty : Builder :=
  { nextValueId := 0, nextInstId := 0, values := [], insts := [] }

/-- Modelled from the spec: `Builder::Constant` and the `Value` class live in
`builder.h` / `value.h`, which are not under `src/`; per §3 a constant is a
Value created with an empty use-list. Returns the new builder and the new
value's id. -/
def Builder.createConstant (b : Builder) : Builder × Nat :=
  ({ b with
      nextValueId := b.nextValueId + 1,
      values := b.values ++ [{ vid := b.nextValueId, usage := [] }] },
    b.nextValueId)

/-- Modelled from the spec: `Builder::Negation` etc. and `Value::AddUsage`
are in `builder.h` / `instruction.cc` / `value.h`, which are not under
`src/`; per §4.4 "every instruction records the operand Values it consumes
and every Value records the instructions that use it (bidirectional
def-use)". Creating a unary instruction appends an instruction whose operand
list is the single operand id and appends the instruction's id to the
operand value's use-list. Returns the new builder and the instruction id. -/
def Builder.createUnary (b : Builder) (kind : UnaryKind) (val : Nat) :
    Builder × Nat :=
  ({ b with
      nextInstId := b.nextInstId + 1,
      values := b.values.map (fun v =>
        if v.vid = val then { v with usage := v.usage ++ [b.nextInstId] } else v),
      insts := b.insts ++ [{ iid := b.nextInstId, kind := kind, operands := [val] }] },
    b.nextInstId)

/-- `Value::Usage()` of the value with id `vid`, when that value exists. -/
def Builder.usageOf (b : Builder) (vid : Nat) : Option (List Nat) :=
  (b.values.find? (fun v => v.vid = vid)).map Value.usage

/-- Def-use consistency: every value's recorded use-list holds exactly the
ids of the instructions whose operand list contains that value. -/
def Consistent (b : Builder) : Prop :=
  ∀ v ∈ b.values, ∀ i,
    i ∈ v.usage ↔ ∃ inst ∈ b.insts, inst.iid = i ∧ v.vid ∈ inst.operands

/-- Operand value ids reference values already handed out. -/
def OperandsBounded (b : Builder) : Prop :=
  ∀ inst ∈ b.insts, ∀ o ∈ inst.operands, o < b.nextValueId

/-- Builders reachable from the empty builder by creating constants and unary
instructions whose operand is an existing value (in C++ the operand is passed
as a `Value*`, so it always exists). -/
inductive Reached : Builder → Prop where
  | empty : Reached Builder.empty
  | createConstant {b : Builder} :
      Reached b → Reached (b.createConstant).fst
  | createUnary {b : Builder} (kind : UnaryKind) (val : Nat)
      (hval : val < b.nextValueId) :
      Reached b → Reached ((b.createUnary kind val)).fst

end ir

namespace transform

/-- `transform::DataMap`: a keyed map of extra pass data; keys and payloads
are modelled by numbers, which is all the claims need. -/
structure DataMap where
  entries : List (Nat × Nat)
  deriving DecidableEq, Repr

/-- `transform::Output`: the transformed program plus extra output data. -/
structure Output where
  program : Program
  data : DataMap
  deriving DecidableEq, Repr

/-- A `transform::Transform`: its `Apply` override, taking the program and
the input `DataMap` and producing `ApplyResult = std::optional<Program>`
together with the `outputs` out-parameter `DataMap`. All state a concrete
pass owns (e.g. a stored seed) is part of the closure. -/
structure Transform where
  apply : Program → DataMap → Option Program × DataMap

/-- `Transform::SkipTransform = std::nullopt`: the explicit skip value of
`ApplyResult`. -/
def Transform.SkipTransform : Option Program := none

/-- Modelled from the spec: `Transform::Run` is implemented in
`transform.cc`, which is not under `src/`; its doc comment in
`src/tint/transform/transform.h` says it runs the transform on the program,
"returning the transformation result or a clone of the program". -/
def Transform.Run (t : Transform) (p : Program) (d : DataMap) : Output :=
  match (t.apply p d).fst with
  | some p2 => { program := p2, data := (t.apply p d).snd }
  | none => { program := p.Clone, data := (t.apply p d).snd }

end transform

namespace fuzzers

/-- A 64-bit linear-congruential step, standing in for the deterministic
pseudo-random engine the shuffle seeds from `seed_`. -/
def lcg (s : Nat) : Nat :=
  (6364136223846793005 * s + 1442695040888963407) % (2 ^ 64)

/-- One pass of a seeded Fisher-Yates-style extraction shuffle, with fuel
equal to the list length. -/
def shuffleFuel {α : Type} : Nat → Nat → List α → List α
  | 0, _, l => l
  | fuel + 1, s, l =>
    match l.get? (s % l.length) with
    | none => []
    | some x => x :: shuffleFuel fuel (lcg s) (l.eraseIdx (s % l.length))

/-- Reorder a list deterministically from a seed. -/
def shuffle {α : Type} (seed : Nat) (l : List α) : List α :=
  shuffleFuel l.length (lcg seed) l

/-- `fuzzers::ShuffleTransform` (`src/tint/fuzzers/shuffle_transform.h`):
a transform holding the random seed given at construction. -/
structure ShuffleTransform where
  seed : Nat
  deriving DecidableEq, Repr

/-- Modelled from the spec: `ShuffleTransform::Apply` is implemented in
`shuffle_transform.cc`, which is not under `src/`; its header says it
"reorders the module scope declarations into a random order" using "the
random seed" stored at construction. The pseudo-random order is a pure
function of the stored seed. -/
def ShuffleTransform.apply (t : ShuffleTransform) (p : Program)
    (_d : transform.DataMap) : Option Program × transform.DataMap :=
  (some { declarations := shuffle t.seed p.declarations, valid := p.valid },
    { entries := [] })

/-- Package a `ShuffleTransform` as a `transform::Transform`. -/
def ShuffleTransform.toTransform (t : ShuffleTransform) : transform.Transform :=
  { apply := t.apply }

end fuzzers

/-! ## Theorems -/

/-- Claim C2: every parser rule result of type `Maybe<T>` is in exactly one of
three states — matched (`matched` true, `errored` false), no-match (both
false), or errored (`errored` true, `matched` false) — and a `Maybe`
constructed from an `Expect` has `matched` true if and only if the `Expect`
was not errored. -/
theorem maybe_three_state_spec {α : Type} [Inhabited α] :
    (∀ m : wgsl.Maybe α, wgsl.Maybe.Constructed m →
      m.inMatchedState ∨ m.inNoMatchState ∨ m.inErroredState) ∧
    (∀ m : wgsl.Maybe α,
      ¬(m.inMatchedState ∧ m.inNoMatchState) ∧
      ¬(m.inMatchedState ∧ m.inErroredState) ∧
      ¬(m.inNoMatchState ∧ m.inErroredState)) ∧
    (∀ (β : Type) (toVal : β → α) (toSource : β → Source) (e : wgsl.Expect β),
      ((wgsl.Maybe.fromExpectCopy toVal toSource e).matched = true ↔
        e.errored = false) ∧
      ((wgsl.Maybe.fromExpectMove toVal e).matched = true ↔
        e.errored = false)) := by
  refine ⟨?_, ?_, ?_⟩
  · intro m hm
    cases hm with
    | ofValue val s => exact Or.inl ⟨rfl, rfl⟩
    | ofErrored => exact Or.inr (Or.inr ⟨rfl, rfl⟩)
    | ofNoMatch => exact Or.inr (Or.inl ⟨rfl, rfl⟩)
    | fromExpectCopy toVal toSource e =>
        cases he : e.errored
        · exact Or.inl (by
            simp [wgsl.Maybe.fromExpectCopy, wgsl.Maybe.inMatchedState, he])
        · exact Or.inr (Or.inr (by
            simp [wgsl.Maybe.fromExpectCopy, wgsl.Maybe.inErroredState, he]))
    | fromExpectMove toVal e =>
        cases he : e.errored
        · exact Or.inl (by
            simp [wgsl.Maybe.fromExpectMove, wgsl.Maybe.inMatchedState, he])
        · exact Or.inr (Or.inr (by
            simp [wgsl.Maybe.fromExpectMove, wgsl.Maybe.inErroredState, he]))
  · intro m
    refine ⟨?_, ?_, ?_⟩ <;>
      rintro ⟨⟨h1, h2⟩, ⟨h3, h4⟩⟩ <;> simp_all [wgsl.Maybe.inMatchedState,
        wgsl.Maybe.inNoMatchState, wgsl.Maybe.inErroredState]
  · intro β toVal toSource e
    constructor <;>
      simp [wgsl.Maybe.fromExpectCopy, wgsl.Maybe.fromExpectMove]

/-- Claim C2, witness: the value-constructed `Maybe` is in the matched state. -/
theorem maybe_three_state_witness :
    (wgsl.Maybe.ofValue (42 : Nat) { line := 1, column := 2 }).inMatchedState ∨
    (wgsl.Maybe.ofValue (42 : Nat) { line := 1, column := 2 }).inNoMatchState ∨
    (wgsl.Maybe.ofValue (42 : Nat) { line := 1, column := 2 }).inErroredState :=
  maybe_three_state_spec.1 _
    (wgsl.Maybe.Constructed.ofValue 42 { line := 1, column := 2 })

/-- A concrete `Expect` whose value and source spans differ, exercising the
copy conversion `Maybe(const Expect<U>&)` at `U = Source`. -/
def expectDemo : wgsl.Expect Source :=
  { value := { line := 1, column := 1 },
    source := { line := 2, column := 2 },
    errored := false }

/-- Claim C10, counterexample: the copy conversion from an `Expect` does not
preserve the source — the member initializer is `source(e.value)`, so the
resulting source is built from the value, not copied from `e.source`. -/
theorem maybe_fromExpectCopy_counterexample :
    (wgsl.Maybe.fromExpectCopy id id expectDemo).source ≠ expectDemo.source := by
  decide

/-- Claim C10, amended: the move conversion from an `Expect` preserves value,
source and errored flag and sets `matched` to the negation of `errored`; the
copy conversion preserves value and errored flag and sets `matched` to the
negation of `errored`, but initializes `source` from the converted *value*
of the `Expect`, not from its source. -/
theorem maybe_fromExpect_amended_spec {α : Type} :
    ∀ (e : wgsl.Expect α) (toSource : α → Source),
      (wgsl.Maybe.fromExpectMove id e).value = e.value ∧
      (wgsl.Maybe.fromExpectMove id e).source = e.source ∧
      (wgsl.Maybe.fromExpectMove id e).errored = e.errored ∧
      (wgsl.Maybe.fromExpectMove id e).matched = !e.errored ∧
      (wgsl.Maybe.fromExpectCopy id toSource e).value = e.value ∧
      (wgsl.Maybe.fromExpectCopy id toSource e).source = toSource e.value ∧
      (wgsl.Maybe.fromExpectCopy id toSource e).errored = e.errored ∧
      (wgsl.Maybe.fromExpectCopy id toSource e).matched = !e.errored := by
  intro e toSource
  refine ⟨rfl, rfl, rfl, rfl, rfl, rfl, rfl, rfl⟩

/-- Claim C4: the parser continues only while synchronized and while the
reported error count is strictly below the maximum, whose default is 25;
once the count reaches the maximum, `continue_parsing` is false. -/
theorem continue_parsing_spec :
    (∀ s : wgsl.ParserState,
      (s.continue_parsing = true ↔
        s.synchronized = true ∧ s.errorCount < s.maxErrors) ∧
      (s.maxErrors ≤ s.errorCount → s.continue_parsing = false)) ∧
    wgsl.ParserState.defaultMaxErrors = 25 := by
  refine ⟨?_, rfl⟩
  intro s
  constructor
  · simp [wgsl.ParserState.continue_parsing]
  · intro h
    simp [wgsl.ParserState.continue_parsing]
    intro _
    omega

/-- Claim C4, witness: a synchronized parser state that has reached 25 errors
with the default maximum stops. -/
theorem continue_parsing_witness :
    wgsl.ParserState.continue_parsing
      { synchronized := true, errorCount := 25,
        maxErrors := wgsl.ParserState.defaultMaxErrors } = false :=
  (continue_parsing_spec.1 _).2 (by decide)

/-- Claim C1: for every invalid program, `Converter::FromProgram` fails with
the message `"input program is not valid"` (no builder is run), and a module
is produced only from a valid program — for every build step. -/
theorem converter_fromProgram_spec
    (build : Program → Except String ir.Module) (p : Program) :
    (p.IsValid = false →
      ir.Converter.FromProgram build p =
        ir.ConverterResult.failure "input program is not valid") ∧
    (∀ m, ir.Converter.FromProgram build p = ir.ConverterResult.success m →
      p.IsValid = true) := by
  constructor
  · intro h
    simp [ir.Converter.FromProgram, h]
  · intro m h
    by_contra hvalid
    rw [Bool.not_eq_true] at hvalid
    simp [ir.Converter.FromProgram, hvalid] at h

/-- Claim C1, witness: an invalid program is rejected with the exact message,
and a valid program yields a module, under a trivial build step. -/
theorem converter_fromProgram_witness :
    ir.Converter.FromProgram (fun _ => Except.ok { functions := ["main"] })
      { declarations := [], valid := false } =
      ir.ConverterResult.failure "input program is not valid" ∧
    Program.IsValid { declarations := [], valid := true } = true :=
  ⟨(converter_fromProgram_spec (fun _ => Except.ok { functions := ["main"] })
      { declarations := [], valid := false }).1 rfl,
   (converter_fromProgram_spec (fun _ => Except.ok { functions := ["main"] })
      { declarations := [], valid := true }).2 { functions := ["main"] } rfl⟩

/-- Claim C6: `Apply` returns either a program or the skip value
`SkipTransform` (`std::nullopt`), and `Transform::Run` returns the applied
program when `Apply` produced one, otherwise a clone of the input program. -/
theorem transform_run_spec (t : transform.Transform) (p : Program)
    (d : transform.DataMap) :
    ((t.apply p d).fst = transform.Transform.SkipTransform →
      transform.Transform.Run t p d =
        { program := p.Clone, data := (t.apply p d).snd }) ∧
    (∀ p2, (t.apply p d).fst = some p2 →
      transform.Transform.Run t p d =
        { program := p2, data := (t.apply p d).snd }) ∧
    ((t.apply p d).fst = transform.Transform.SkipTransform ∨
      ∃ p2, (t.apply p d).fst = some p2) := by
  refine ⟨?_, ?_, ?_⟩
  · intro h
    simp [transform.Transform.Run, transform.Transform.SkipTransform] at h ⊢
    rw [h]
  · intro p2 h
    simp [transform.Transform.Run]
    rw [h]
  · cases h : (t.apply p d).fst with
    | none => exact Or.inl rfl
    | some p2 => exact Or.inr ⟨p2, rfl⟩

/-- Claim C6, witness: a skipping transform yields a clone of its input and a
program-producing transform yields the applied program. -/
theorem transform_run_witness :
    transform.Transform.Run { apply := fun _ d => (none, d) }
      { declarations := ["a"], valid := true } { entries := [(1, 2)] } =
      { program := Program.Clone { declarations := ["a"], valid := true },
        data := { entries := [(1, 2)] } } ∧
    transform.Transform.Run { apply := fun p d => (some p, d) }
      { declarations := ["a"], valid := true } { entries := [(1, 2)] } =
      { program := { declarations := ["a"], valid := true },
        data := { entries := [(1, 2)] } } :=
  ⟨(transform_run_spec { apply := fun _ d => (none, d) }
      { declarations := ["a"], valid := true } { entries := [(1, 2)] }).1 rfl,
   (transform_run_spec { apply := fun p d => (some p, d) }
      { declarations := ["a"], valid := true } { entries := [(1, 2)] }).2.1
      { declarations := ["a"], valid := true } rfl⟩

/-- Claim C8: a transform pass is a deterministic function of its inputs —
running `Transform::Run` twice on identical input program and identical input
data produces identical output (all pass-owned state, such as
`ShuffleTransform`'s stored seed, is part of the pass itself, and the
pseudo-random order is reconstructed from that seed on every run). -/
theorem transform_deterministic_spec (t : transform.Transform)
    (p1 p2 : Program) (d1 d2 : transform.DataMap)
    (hp : p1 = p2) (hd : d1 = d2) :
    transform.Transform.Run t p1 d1 = transform.Transform.Run t p2 d2 := by
  subst hp
  subst hd
  rfl

/-- Claim C8, witness: two runs of a seeded `ShuffleTransform` on the same
program and data coincide. -/
theorem transform_deterministic_witness :
    transform.Transform.Run (fuzzers.ShuffleTransform.toTransform { seed := 7 })
      { declarations := ["a", "b", "c"], valid := true } { entries := [] } =
    transform.Transform.Run (fuzzers.ShuffleTransform.toTransform { seed := 7 })
      { declarations := ["a", "b", "c"], valid := true } { entries := [] } :=
  transform_deterministic_spec
    (fuzzers.ShuffleTransform.toTransform { seed := 7 })
    { declarations := ["a", "b", "c"], valid := true }
    { declarations := ["a", "b", "c"], valid := true }
    { entries := [] } { entries := [] } rfl rfl

/-- The `workgroup_size()` scan characterized through `List.find?`: the first
workgroup decoration wins, and the default is the `{1, 1, 1}` triple. -/
theorem workgroupSizeLoop_find (l : List ast.Decoration) :
    (l.find? ast.Decoration.isWorkgroup = none →
      ast.workgroupSizeLoop l = (1, 1, 1)) ∧
    (∀ d, l.find? ast.Decoration.isWorkgroup = some d →
      some (ast.workgroupSizeLoop l) = d.workgroupValues) := by
  induction l with
  | nil => exact ⟨fun _ => rfl, fun d h => by simp at h⟩
  | cons hd tl ih =>
    cases hd with
    | workgroup x y z =>
      constructor
      · intro h
        simp [List.find?, ast.Decoration.isWorkgroup] at h
      · intro d h
        simp [List.find?, ast.Decoration.isWorkgroup] at h
        subst h
        rfl
    | stage s =>
      constructor
      · intro h
        simp only [List.find?, ast.Decoration.isWorkgroup] at h
        exact ih.1 h
      · intro d h
        simp only [List.find?, ast.Decoration.isWorkgroup] at h
        exact ih.2 d h
    | binding n =>
      constructor
      · intro h
        simp only [List.find?, ast.Decoration.isWorkgroup] at h
        exact ih.1 h
      · intro d h
        simp only [List.find?, ast.Decoration.isWorkgroup] at h
        exact ih.2 d h
    | set n =>
      constructor
      · intro h
        simp only [List.find?, ast.Decoration.isWorkgroup] at h
        exact ih.1 h
      · intro d h
        simp only [List.find?, ast.Decoration.isWorkgroup] at h
        exact ih.2 d h
    | location n =>
      constructor
      · intro h
        simp only [List.find?, ast.Decoration.isWorkgroup] at h
        exact ih.1 h
      · intro d h
        simp only [List.find?, ast.Decoration.isWorkgroup] at h
        exact ih.2 d h
    | builtin n =>
      constructor
      · intro h
        simp only [List.find?, ast.Decoration.isWorkgroup] at h
        exact ih.1 h
      · intro d h
        simp only [List.find?, ast.Decoration.isWorkgroup] at h
        exact ih.2 d h

/-- Claim C5: `Function::workgroup_size()` returns the value triple of the
first workgroup decoration in the decoration list when one is present, and
`(1, 1, 1)` for every function carrying no workgroup decoration. -/
theorem workgroup_size_spec (f : ast.Function) :
    (f.decorations.find? ast.Decoration.isWorkgroup = none →
      f.workgroup_size = (1, 1, 1)) ∧
    (∀ d, f.decorations.find? ast.Decoration.isWorkgroup = some d →
      some f.workgroup_size = d.workgroupValues) :=
  workgroupSizeLoop_find f.decorations

/-- Claim C5, witness: a compute function whose second decoration is
`workgroup(2, 3, 4)` reports that triple, and an undecorated function reports
`(1, 1, 1)`. -/
theorem workgroup_size_witness :
    some (ast.Function.workgroup_size
      { name := "main",
        decorations := [ast.Decoration.stage ast.PipelineStage.kCompute,
          ast.Decoration.workgroup 2 3 4],
        referenced_module_vars := [] }) = some ((2, 3, 4) : Nat × Nat × Nat) ∧
    ast.Function.workgroup_size
      { name := "helper", decorations := [], referenced_module_vars := [] } =
      (1, 1, 1) :=
  ⟨(workgroup_size_spec _).2 (ast.Decoration.workgroup 2 3 4) (by decide),
   (workgroup_size_spec _).1 (by decide)⟩

/-- Claim C9: `add_referenced_module_variable` leaves the list unchanged when
an entry with the same name is already present (even for a different variable
object), appends at the end otherwise (preserving first-insertion order), and
keeps the per-name list duplicate-free across any sequence of calls. -/
theorem add_referenced_module_variable_spec :
    (∀ (f : ast.Function) (var : ast.Variable),
      (∃ v ∈ f.referenced_module_vars, v.name = var.name) →
        f.add_referenced_module_variable var = f) ∧
    (∀ (f : ast.Function) (var : ast.Variable),
      (∀ v ∈ f.referenced_module_vars, v.name ≠ var.name) →
        (f.add_referenced_module_variable var).referenced_module_vars =
          f.referenced_module_vars ++ [var]) ∧
    (∀ (f : ast.Function) (vars : List ast.Variable),
      (f.referenced_module_vars.map ast.Variable.name).Nodup →
      (((vars.foldl ast.Function.add_referenced_module_variable
          f).referenced_module_vars).map ast.Variable.name).Nodup) := by
  have step : ∀ (f : ast.Function) (var : ast.Variable),
      (f.referenced_module_vars.map ast.Variable.name).Nodup →
      (((f.add_referenced_module_variable var).referenced_module_vars).map
        ast.Variable.name).Nodup := by
    intro f var hnd
    by_cases hany :
        f.referenced_module_vars.any (fun w => w.name = var.name) = true
    · simpa [ast.Function.add_referenced_module_variable, hany] using hnd
    · rw [Bool.not_eq_true] at hany
      rw [List.any_eq_false] at hany
      simp only [ast.Function.add_referenced_module_variable, List.any_eq_false]
      rw [if_neg (by simpa [List.any_eq_false] using hany)]
      simp only [List.map_append, List.map_cons, List.map_nil]
      rw [List.nodup_append]
      refine ⟨hnd, List.nodup_singleton _, ?_⟩
      intro n hn hn2
      simp at hn2
      subst hn2
      rw [List.mem_map] at hn
      obtain ⟨w, hw, hwn⟩ := hn
      exact absurd hwn (by simpa using hany w hw)
  refine ⟨?_, ?_, ?_⟩
  · rintro f var ⟨v, hv, hname⟩
    have hany : f.referenced_module_vars.any (fun w => w.name = var.name) = true := by
      rw [List.any_eq_true]
      exact ⟨v, hv, by simpa using hname⟩
    simp [ast.Function.add_referenced_module_variable, hany]
  · intro f var h
    have hany : f.referenced_module_vars.any (fun w => w.name = var.name) = false := by
      rw [List.any_eq_false]
      intro w hw
      simpa using h w hw
    simp [ast.Function.add_referenced_module_variable, hany]
  · intro f vars
    induction vars generalizing f with
    | nil => intro h; simpa using h
    | cons v vs ih =>
      intro h
      rw [List.foldl_cons]
      exact ih _ (step f v h)

/-- A module-scope variable named `a`. -/
def varDemoA : ast.Variable :=
  { name := "a", storage_class := ast.StorageClass.kNone,
    kind := ast.VariableKind.plain }

/-- A different variable object that shares the name `a`. -/
def varDemoA2 : ast.Variable :=
  { name := "a", storage_class := ast.StorageClass.kUniform,
    kind := ast.VariableKind.plain }

/-- A function with an empty referenced-module-variable list. -/
def funcDemoEmpty : ast.Function :=
  { name := "f", decorations := [], referenced_module_vars := [] }

/-- A function whose referenced-module-variable list already holds
`varDemoA`. -/
def funcDemoA : ast.Function :=
  { name := "f", decorations := [], referenced_module_vars := [varDemoA] }

/-- Claim C9, witness: adding a distinct variable object with a duplicate
name changes nothing, adding a fresh name appends, and a fold over a
duplicate-name sequence keeps names duplicate-free. -/
theorem add_referenced_module_variable_witness :
    varDemoA ≠ varDemoA2 ∧
    funcDemoA.add_referenced_module_variable varDemoA2 = funcDemoA ∧
    (funcDemoEmpty.add_referenced_module_variable
      varDemoA).referenced_module_vars = [] ++ [varDemoA] ∧
    ((([varDemoA, varDemoA2].foldl ast.Function.add_referenced_module_variable
      funcDemoEmpty).referenced_module_vars).map ast.Variable.name).Nodup :=
  ⟨by decide,
   add_referenced_module_variable_spec.1 funcDemoA varDemoA2
     ⟨varDemoA, by simp [funcDemoA], rfl⟩,
   add_referenced_module_variable_spec.2.1 funcDemoEmpty varDemoA
     (by simp [funcDemoEmpty]),
   add_referenced_module_variable_spec.2.2 funcDemoEmpty [varDemoA, varDemoA2]
     (by simp [funcDemoEmpty])⟩

/-- The binding/set scan yields a binding (resp. set) exactly when the
accumulator already had one or the decoration list carries one. -/
theorem scanBindingSetLoop_isSome (l : List ast.Decoration) :
    ∀ acc : Option Nat × Option Nat,
      (((ast.scanBindingSetLoop acc l).fst.isSome = true ↔
        acc.fst.isSome = true ∨ ∃ b, ast.Decoration.binding b ∈ l) ∧
      ((ast.scanBindingSetLoop acc l).snd.isSome = true ↔
        acc.snd.isSome = true ∨ ∃ s, ast.Decoration.set s ∈ l)) := by
  induction l with
  | nil => intro acc; simp [ast.scanBindingSetLoop]
  | cons hd tl ih =>
    intro acc
    cases hd with
    | workgroup x y z =>
      refine ⟨?_, ?_⟩ <;> simp only [ast.scanBindingSetLoop]
      · rw [(ih acc).1]; simp
      · rw [(ih acc).2]; simp
    | stage s =>
      refine ⟨?_, ?_⟩ <;> simp only [ast.scanBindingSetLoop]
      · rw [(ih acc).1]; simp
      · rw [(ih acc).2]; simp
    | binding b =>
      refine ⟨?_, ?_⟩ <;> simp only [ast.scanBindingSetLoop]
      · rw [(ih (some b, acc.snd)).1]; simp
      · rw [(ih (some b, acc.snd)).2]; simp
    | set s =>
      refine ⟨?_, ?_⟩ <;> simp only [ast.scanBindingSetLoop]
      · rw [(ih (acc.fst, some s)).1]; simp
      · rw [(ih (acc.fst, some s)).2]; simp
    | location n =>
      refine ⟨?_, ?_⟩ <;> simp only [ast.scanBindingSetLoop]
      · rw [(ih acc).1]; simp
      · rw [(ih acc).2]; simp
    | builtin n =>
      refine ⟨?_, ?_⟩ <;> simp only [ast.scanBindingSetLoop]
      · rw [(ih acc).1]; simp
      · rw [(ih acc).2]; simp

/-- The scan from null pointers finds a binding (resp. set) exactly when the
decoration list carries one. -/
theorem scanBindingSet_isSome (ds : List ast.Decoration) :
    ((ast.scanBindingSet ds).fst.isSome = true ↔
      ∃ b, ast.Decoration.binding b ∈ ds) ∧
    ((ast.scanBindingSet ds).snd.isSome = true ↔
      ∃ s, ast.Decoration.set s ∈ ds) := by
  have h := scanBindingSetLoop_isSome ds (none, none)
  simpa [ast.scanBindingSet] using h

/-- The per-variable filter of `referenced_uniform_variables()` emits a pair
exactly for a uniform, decorated variable whose scan found both a binding and
a set decoration. -/
theorem uniformEntry_eq_some (a v : ast.Variable) (info : ast.BindingInfo) :
    ast.uniformEntry a = some (v, info) ↔
      (a = v ∧ a.storage_class = ast.StorageClass.kUniform ∧
        ∃ ds, a.kind = ast.VariableKind.decorated ds ∧
          ast.scanBindingSet ds = (some info.binding, some info.set)) := by
  obtain ⟨ib, is⟩ := info
  unfold ast.uniformEntry
  by_cases hsc : a.storage_class = ast.StorageClass.kUniform
  · rw [if_pos hsc]
    rcases hk : a.kind with _ | ds
    · simp [hsc]
    · rcases hscan : ast.scanBindingSet ds with ⟨fst, snd⟩
      cases fst with
      | none => simp [hscan, hsc]
      | some b =>
        cases snd with
        | none => simp [hscan, hsc]
        | some s => simp [hscan, hsc]
  · rw [if_neg hsc]
    simp [hsc]

/-- Claim C7: `referenced_uniform_variables()` returns exactly the referenced
module-scope variables of uniform storage class that are decorated variables
whose decoration list carries both a binding and a set decoration, each
paired with that binding info; the scan outcome is `some` exactly when the
corresponding decoration is present, so a variable missing either decoration
is omitted. -/
theorem referenced_uniform_variables_spec (f : ast.Function)
    (v : ast.Variable) (info : ast.BindingInfo) :
    ((v, info) ∈ f.referenced_uniform_variables ↔
      (v ∈ f.referenced_module_vars ∧
        v.storage_class = ast.StorageClass.kUniform ∧
        ∃ ds, v.kind = ast.VariableKind.decorated ds ∧
          ast.scanBindingSet ds = (some info.binding, some info.set))) ∧
    (∀ ds : List ast.Decoration,
      ((ast.scanBindingSet ds).fst.isSome = true ↔
        ∃ b, ast.Decoration.binding b ∈ ds) ∧
      ((ast.scanBindingSet ds).snd.isSome = true ↔
        ∃ s, ast.Decoration.set s ∈ ds)) := by
  constructor
  · rw [ast.Function.referenced_uniform_variables, List.mem_filterMap]
    constructor
    · rintro ⟨a, ha, hentry⟩
      rw [uniformEntry_eq_some] at hentry
      obtain ⟨rfl, hsc, hrest⟩ := hentry
      exact ⟨ha, hsc, hrest⟩
    · rintro ⟨hv, hsc, hrest⟩
      exact ⟨v, hv, (uniformEntry_eq_some v v info).mpr ⟨rfl, hsc, hrest⟩⟩
  · exact scanBindingSet_isSome

/-- Builder operations preserve operand boundedness and def-use
consistency. -/
theorem reached_inv (b : ir.Builder) (h : ir.Reached b) :
    ir.OperandsBounded b ∧ ir.Consistent b := by
  induction h with
  | empty =>
    constructor
    · intro inst hmem
      simp [ir.Builder.empty] at hmem
    · intro v hv
      simp [ir.Builder.empty] at hv
  | @createConstant b2 h ih =>
    obtain ⟨hO, hC⟩ := ih
    constructor
    · intro inst hmem o ho
      simp only [ir.Builder.createConstant] at hmem ⊢
      exact Nat.lt_succ_of_lt (hO inst hmem o ho)
    · intro v hv i
      simp only [ir.Builder.createConstant, List.mem_append,
        List.mem_singleton] at hv
      rcases hv with hv | hv
      · simpa [ir.Builder.createConstant] using hC v hv i
      · subst hv
        simp only [ir.Builder.createConstant, List.not_mem_nil, false_iff]
        rintro ⟨inst, hinst, hiid, hvid⟩
        exact absurd (hO inst hinst _ hvid) (lt_irrefl _)
  | @createUnary b2 kind val hval h ih =>
    obtain ⟨hO, hC⟩ := ih
    constructor
    · intro inst hmem o ho
      simp only [ir.Builder.createUnary, List.mem_append,
        List.mem_singleton] at hmem ⊢
      rcases hmem with hmem | hmem
      · exact hO inst hmem o ho
      · subst hmem
        simp only [List.mem_singleton] at ho
        subst ho
        exact hval
    · intro v hv i
      simp only [ir.Builder.createUnary, List.mem_map] at hv
      obtain ⟨w, hw, hweq⟩ := hv
      by_cases hwv : w.vid = val
      · rw [if_pos hwv] at hweq
        subst hweq
        simp only [ir.Builder.createUnary, List.mem_append, List.mem_singleton]
        constructor
        · rintro (hi | rfl)
          · obtain ⟨inst, hinst, hiid, hop⟩ := (hC w hw i).mp hi
            exact ⟨inst, Or.inl hinst, hiid, hop⟩
          · exact ⟨{ iid := b2.nextInstId, kind := kind, operands := [val] },
              Or.inr rfl, rfl, by simp [hwv]⟩
        · rintro ⟨inst, hinst | rfl, hiid, hop⟩
          · exact Or.inl ((hC w hw i).mpr ⟨inst, hinst, hiid, hop⟩)
          · exact Or.inr hiid.symm
      · rw [if_neg hwv] at hweq
        subst hweq
        simp only [ir.Builder.createUnary, List.mem_append, List.mem_singleton]
        constructor
        · intro hi
          obtain ⟨inst, hinst, hiid, hop⟩ := (hC w hw i).mp hi
          exact ⟨inst, Or.inl hinst, hiid, hop⟩
        · rintro ⟨inst, hinst | rfl, hiid, hop⟩
          · exact (hC w hw i).mpr ⟨inst, hinst, hiid, hop⟩
          · simp only [List.mem_singleton] at hop
            exact absurd hop hwv

/-- Claim C3: every builder state reachable by creating constants and unary
instructions keeps each value's recorded use-list exactly equal to the set of
instructions whose operand list contains that value; in particular, after
creating a unary instruction whose operand is a fresh constant, the
constant's `Usage()` holds exactly that instruction. -/
theorem ir_defuse_consistency_spec :
    (∀ b : ir.Builder, ir.Reached b → ir.Consistent b) ∧
    ((ir.Builder.empty.createConstant).fst.createUnary ir.UnaryKind.kNegation
        (ir.Builder.empty.createConstant).snd).fst.usageOf
      (ir.Builder.empty.createConstant).snd =
      some [((ir.Builder.empty.createConstant).fst.createUnary
        ir.UnaryKind.kNegation (ir.Builder.empty.createConstant).snd).snd] := by
  constructor
  · intro b h
    exact (reached_inv b h).2
  · decide

/-- Claim C3, witness: the builder that created one constant and one negation
of it is def-use consistent. -/
theorem ir_defuse_consistency_witness :
    ir.Consistent ((ir.Builder.empty.createConstant).fst.createUnary
      ir.UnaryKind.kNegation 0).fst :=
  ir_defuse_consistency_spec.1 _
    (ir.Reached.createUnary ir.UnaryKind.kNegation 0 (by decide)
      (ir.Reached.createConstant ir.Reached.empty))

end Tint
